import Mathlib

/-!
Verification of the resilient extraction orchestration layer of `snatch`
(crate `snatch-rs`): URL validation (`src/validation.rs`), the retry
controller (`src/retry.rs`), the TTL/size-bounded cache (`src/cache.rs`)
and format selection (`src/extractor.rs`), shallowly embedded as pure
Lean functions, with the clock and the external subprocess passed in
explicitly.
-/

namespace Snatch

/-! ## Validation (src/validation.rs) -/

/-- Mirrors `ALLOWED_PLATFORMS` in validation.rs. -/
def ALLOWED_PLATFORMS : List String := ["instagram.com", "tiktok.com", "twitter.com", "x.com"]

/-- Mirrors `DANGEROUS_CHARS` in validation.rs:
`; | & $ backtick newline carriage-return tab backslash < >`.
The backtick is written `Char.ofNat 96`. -/
def DANGEROUS_CHARS : List Char :=
  [';', '|', '&', '$', Char.ofNat 96, '\n', '\r', '\t', '\\', '<', '>']

/-- Membership test used by the character screen in `validate_url`. -/
def isDangerousChar (c : Char) : Bool := DANGEROUS_CHARS.contains c

/-- The part of `url::Url` that `validate_url` looks at: `scheme()` and
`host_str()`.  The `url` crate is an external dependency, so the parser
itself is kept abstract (a parameter of `validate_url`). -/
structure ParsedUrl where
  scheme : String
  host : Option String
  deriving DecidableEq, Repr

/-- Typed reasons for the distinct error-return sites of `validate_url`
(the Rust function returns formatted `String`s; each constructor below
corresponds to exactly one `return Err(...)` site).  `emptyInput` is the
additional reason named by the specification's `ValidationVerdict`
taxonomy; the code has no corresponding return site. -/
inductive ValidationError where
  | dangerousCharacter (c : Char)
  | malformedUrl
  | disallowedScheme (s : String)
  | noHost
  | disallowedHost (h : String)
  | emptyInput
  deriving DecidableEq, Repr

/-- Unicode-independent model of `str::to_lowercase` (the strings compared
in this repository are ASCII). -/
def toLowerStr (s : String) : String := ⟨s.data.map Char.toLower⟩

/-- Model of `str::ends_with` on whole strings. -/
def strEndsWith (s suffix : String) : Bool := List.isSuffixOf suffix.data s.data

/-- Model of `validate_url` in validation.rs, parameterized by the URL
parser `parse` (the external `url::Url::parse`, returning `none` on parse
failure).  Steps, in source order: scan for dangerous characters
(returning the first offender), parse, check the scheme, check the host
against the allow-list. -/
def validate_url (parse : String → Option ParsedUrl) (url : String) :
    Except ValidationError Unit :=
  match url.data.find? isDangerousChar with
  | some c => .error (.dangerousCharacter c)
  | none =>
    match parse url with
    | none => .error .malformedUrl
    | some parsed =>
      if parsed.scheme = "http" ∨ parsed.scheme = "https" then
        let host := parsed.host.getD ""
        if host = "" then .error .noHost
        else
          let hostLower := toLowerStr host
          if ALLOWED_PLATFORMS.any
              (fun platform => hostLower == platform || strEndsWith hostLower ("." ++ platform)) then
            .ok ()
          else .error (.disallowedHost host)
      else .error (.disallowedScheme parsed.scheme)

/-! ## Retry controller (src/retry.rs) -/

/-- Mirrors the delay update in `retry_with_backoff`:
`delay = delay.saturating_mul(2); if delay > 30s { delay = 30s }`,
in milliseconds. -/
def capDelay (d : Nat) : Nat := if 30000 < d then 30000 else d

/-- Loop body of `retry_with_backoff`, with the `loop`/`attempt` pair
de-looped into structural recursion on `remaining = max_retries - attempt`
(the loop retries exactly when `attempt < max_retries`, i.e. when
`remaining > 0`).  `op i` is the result of the i-th invocation of the
operation (0-indexed); the second component of the result counts the
invocations performed.  The source's `last_error` variable is dead code
(the final `Err(e) => return Err(e)` arm returns the error of the final
attempt directly) and is not modelled. -/
def retryAux {T E : Type} (op : Nat → Except E T) (attempt delay : Nat) :
    Nat → Except E T × Nat
  | 0 =>
    match op attempt with
    | .ok v => (.ok v, attempt + 1)
    | .error e => (.error e, attempt + 1)
  | remaining + 1 =>
    match op attempt with
    | .ok v => (.ok v, attempt + 1)
    | .error _ => retryAux op (attempt + 1) (capDelay (delay * 2)) remaining

/-- Model of `retry_with_backoff(operation, max_retries)` in retry.rs:
`attempt` starts at 0 and the initial delay is 500 ms. -/
def retry_with_backoff {T E : Type} (op : Nat → Except E T) (maxRetries : Nat) :
    Except E T × Nat :=
  retryAux op 0 500 maxRetries

/-- Mirrors `NON_RETRYABLE_PATTERNS` in retry.rs. -/
def NON_RETRYABLE_PATTERNS : List String :=
  ["invalid URL", "unsupported platform", "URL contains", "Only HTTP and HTTPS"]

/-- Contiguous-sublist test: does `pat` occur inside the second list? -/
def listContainsSub (pat : List Char) : List Char → Bool
  | [] => pat.isEmpty
  | c :: cs => List.isPrefixOf pat (c :: cs) || listContainsSub pat cs

/-- Model of `str::contains` (substring containment). -/
def strContains (s pat : String) : Bool := listContainsSub pat.data s.data

/-- Model of `url.trim().is_empty()`: a string trims to the empty string
exactly when every one of its characters is whitespace. -/
def trimmedEmpty (url : String) : Bool := url.data.all Char.isWhitespace

/-- Model of `is_retryable_error` in retry.rs: false iff the lowercased
message contains one of the lowercased non-retryable patterns. -/
def is_retryable_error (error : String) : Bool :=
  !(NON_RETRYABLE_PATTERNS.any
    (fun pattern => strContains (toLowerStr error) (toLowerStr pattern)))

/-! ## Cache (src/cache.rs) -/

/-- Model of `std::time::Duration`: whole seconds plus sub-second
nanoseconds (`subsec_nanos() < 1_000_000_000`). -/
structure Duration where
  secs : Nat
  subsecNanos : Nat
  deriving DecidableEq, Repr

/-- Mirrors `CacheEntry<V>` in cache.rs: stored value plus absolute
expiry as a Unix timestamp in whole seconds. -/
structure CacheEntry (V : Type) where
  data : V
  expires_at : Nat
  deriving DecidableEq, Repr

/-- Mirrors `Cache<K, V>` in cache.rs.  The `HashMap` is modelled as an
association list; the source's `now_fn` clock is passed to each
operation as an explicit `now` argument (whole seconds, as in the
source). -/
structure Cache (K V : Type) where
  data : List (K × CacheEntry V)
  max_size : Nat
  ttl : Duration
  deriving DecidableEq, Repr

/-- Map lookup (`HashMap::get`): the entry bound to `k`, if any. -/
def findEntry {K V : Type} [DecidableEq K] (data : List (K × CacheEntry V)) (k : K) :
    Option (CacheEntry V) :=
  (data.find? (fun p => decide (p.1 = k))).map (fun p => p.2)

/-- Map removal (`HashMap::remove`): drops the binding of `k`. -/
def eraseKey {K V : Type} [DecidableEq K] : List (K × CacheEntry V) → K → List (K × CacheEntry V)
  | [], _ => []
  | p :: ps, k => if p.1 = k then ps else p :: eraseKey ps k

/-- Map insertion (`HashMap::insert`): replaces the binding of `k` when
present, otherwise adds a new one. -/
def insertAssoc {K V : Type} [DecidableEq K] :
    List (K × CacheEntry V) → K → CacheEntry V → List (K × CacheEntry V)
  | [], k, e => [(k, e)]
  | p :: ps, k, e => if p.1 = k then (k, e) :: ps else p :: insertAssoc ps k e

/-- Mirrors `Cache::get`: return the stored value if the entry exists and
`now < expires_at`; an existing expired entry is removed as a side
effect and nothing is returned. -/
def cacheGet {K V : Type} [DecidableEq K] (c : Cache K V) (k : K) (now : Nat) :
    Option V × Cache K V :=
  match findEntry c.data k with
  | some e =>
    if now < e.expires_at then (some e.data, c)
    else (none, { c with data := eraseKey c.data k })
  | none => (none, c)

/-- The element `min_by_key(|(_, entry)| entry.expires_at)` selects: an
entry with minimal `expires_at` (the last such under iteration order, as
documented for `Iterator::min_by_key`). -/
def minExpiry {K V : Type} : List (K × CacheEntry V) → Option (K × CacheEntry V)
  | [] => none
  | p :: ps =>
    match minExpiry ps with
    | none => some p
    | some q => if p.2.expires_at < q.2.expires_at then some p else some q

/-- Mirrors `Cache::evict_oldest`: remove the binding of the key with the
smallest `expires_at`; a no-op on an empty map. -/
def evictOldest {K V : Type} [DecidableEq K] (data : List (K × CacheEntry V)) :
    List (K × CacheEntry V) :=
  match minExpiry data with
  | some p => eraseKey data p.1
  | none => data

/-- The `while self.data.len() >= self.max_size { self.evict_oldest(); }`
loop of `Cache::put`, made total with an explicit fuel budget: `none`
means the loop did not finish within `fuel` iterations (the loop body
never breaks, so exhausting every finite fuel is how the model renders
divergence). -/
def evictLoopFuel {K V : Type} [DecidableEq K] (maxSize : Nat) :
    Nat → List (K × CacheEntry V) → Option (List (K × CacheEntry V))
  | 0, _ => none
  | fuel + 1, data =>
    if maxSize ≤ data.length then evictLoopFuel maxSize fuel (evictOldest data)
    else some data

/-- Mirrors the expiry computation in `Cache::put`:
`now.saturating_add(ttl.as_secs()).saturating_add(ttl.subsec_nanos() as u64 / 1_000_000_000)`
(`Nat` addition models the `u64` saturating addition; no input here
approaches `2^64`). -/
def expiresAtOf (now : Nat) (ttl : Duration) : Nat :=
  now + ttl.secs + ttl.subsecNanos / 1000000000

/-- Mirrors `Cache::put`: run the eviction loop (with `fuel` iterations
available), then insert the new entry with `expires_at` computed from
`now` and the cache TTL.  `none` propagates a non-terminating eviction
loop. -/
def cachePut {K V : Type} [DecidableEq K] (c : Cache K V) (k : K) (v : V)
    (now fuel : Nat) : Option (Cache K V) :=
  match evictLoopFuel c.max_size fuel c.data with
  | none => none
  | some d => some { c with data := insertAssoc d k ⟨v, expiresAtOf now c.ttl⟩ }

/-- Mirrors `Cache::remove`: drop the binding of `k` and hand its stored
value back, with no expiry check of any kind. -/
def cacheRemove {K V : Type} [DecidableEq K] (c : Cache K V) (k : K) :
    Option V × Cache K V :=
  ((findEntry c.data k).map (fun e => e.data), { c with data := eraseKey c.data k })

/-! ## Extractor (src/extractor.rs) and models (src/models.rs of the
downloader-api crate, identical shapes) -/

/-- Mirrors `VideoFormat` in models.rs. -/
structure VideoFormat where
  quality : String
  url : String
  ext : String
  filesize : Option Nat
  deriving DecidableEq, Repr

/-- Mirrors `ExtractResponse` in models.rs (`ExtractResponse::new` sets
`success = true`). -/
structure ExtractResponse where
  success : Bool
  platform : String
  title : String
  thumbnail : Option String
  formats : List VideoFormat
  deriving DecidableEq, Repr

/-- One element of the tool's `formats`/`requested_downloads` arrays, as
read by `extract_formats`: each field is the result of the corresponding
`f["…"].as_str()` / `as_u64()` JSON accessor. -/
structure RawFormat where
  vcodec : Option String
  height : Option Nat
  format_note : Option String
  url : Option String
  ext : Option String
  filesize : Option Nat
  deriving DecidableEq, Repr

/-- The top-level fields of the yt-dlp JSON output that `extract_formats`
reads, via the same accessors. -/
structure ToolJson where
  url : Option String
  ext : Option String
  filesize : Option Nat
  formats : Option (List RawFormat)
  requested_downloads : Option (List RawFormat)
  deriving DecidableEq, Repr

/-- The filter in `extract_formats`:
`vcodec.unwrap_or("none") != "none" && f["url"].as_str().is_some()`. -/
def formatKeep (f : RawFormat) : Bool :=
  !(f.vcodec.getD "none" == "none") && f.url.isSome

/-- `f["height"].as_u64().unwrap_or(0)`. -/
def heightOf (f : RawFormat) : Nat := f.height.getD 0

/-- Sort order of the `sort_by(|a, b| h_b.cmp(&h_a))` call: `a` precedes
`b` when `a`'s height is at least `b`'s. -/
abbrev heightGE (a b : RawFormat) : Prop := heightOf b ≤ heightOf a

instance : DecidableRel heightGE := fun a b => Nat.decLe (heightOf b) (heightOf a)

instance : IsTotal RawFormat heightGE :=
  ⟨fun a b => (Nat.le_total (heightOf b) (heightOf a)).imp id id⟩

instance : IsTrans RawFormat heightGE :=
  ⟨fun _ _ _ hab hbc => Nat.le_trans hbc hab⟩

/-- The `video_formats.sort_by(...)` call: a stable sort, descending by
height (insertion sort has exactly the stability of `slice::sort_by`). -/
def sortByHeightDesc (l : List RawFormat) : List RawFormat := l.insertionSort heightGE

/-- The quality label of one kept candidate:
`"{height}p"` when `height > 0`, else `format_note` or `"unknown"`. -/
def labelOf (f : RawFormat) : String :=
  if 0 < heightOf f then toString (heightOf f) ++ "p" else f.format_note.getD "unknown"

/-- The `VideoFormat` pushed for one kept candidate in the sorted
formats path. -/
def mkVideoFormat (f : RawFormat) : VideoFormat :=
  ⟨labelOf f, f.url.getD "", f.ext.getD "mp4", f.filesize⟩

/-- Model of `extract_formats` in extractor.rs: the top-level direct-URL
fast path, else filter/sort/take-3/label over the `formats` array, else
the `requested_downloads` fallback, else the empty list. -/
def extract_formats (j : ToolJson) : List VideoFormat :=
  match j.url with
  | some u => [⟨"best", u, j.ext.getD "mp4", j.filesize⟩]
  | none =>
    let fromFormats :=
      match j.formats with
      | some fl => ((sortByHeightDesc (fl.filter formatKeep)).take 3).map mkVideoFormat
      | none => []
    if fromFormats.isEmpty then
      match j.requested_downloads with
      | some ds =>
        ds.filterMap (fun d => d.url.map (fun u =>
          (⟨"best", u, d.ext.getD "mp4", d.filesize⟩ : VideoFormat)))
      | none => []
    else fromFormats

/-- Model of `extract_video_info` in extractor.rs: validate, then run the
internal extraction through `retry_with_backoff` with `max_retries = 3`.
The internal operation (yt-dlp subprocess + JSON decoding) is abstracted
as `tool`, with `tool i` the outcome of its i-th invocation; the second
component counts tool invocations.  Note the function touches no cache:
the `Cache` built in main.rs is never consulted on this path. -/
def extract_video_info (parse : String → Option ParsedUrl)
    (tool : Nat → Except String ExtractResponse) (url : String) :
    Except (ValidationError ⊕ String) ExtractResponse × Nat :=
  match validate_url parse url with
  | .error e => (.error (.inl e), 0)
  | .ok _ =>
    match retry_with_backoff tool 3 with
    | (.ok r, n) => (.ok r, n)
    | (.error e, n) => (.error (.inr e), n)

/-! ## Concrete inputs used by witnesses, counterexamples and code-bug
evidence -/

/-- A URL carrying a shell-injection attempt (first dangerous character
is the semicolon). -/
def c1url : String := "https://instagram.com/p/123; rm -rf /"

/-- A parser stub that rejects every input, as `url::Url::parse` does on
the empty string. -/
def noParse : String → Option ParsedUrl := fun _ => none

/-- A parser behaving as `url::Url::parse` on one accepted Instagram
URL. -/
def instaParse : String → Option ParsedUrl := fun s =>
  if s = "https://instagram.com/p/ABC123" then some ⟨"https", some "instagram.com"⟩ else none

/-- An error message that `is_retryable_error` classifies non-retryable
(it contains the pattern "URL contains"). -/
def c2err : String := "URL contains invalid character (;). Only standard URL characters are allowed."

/-- An operation every attempt of which fails with the non-retryable
message `c2err`. -/
def c2op : Nat → Except String Unit := fun _ => .error c2err

/-- An operation failing on attempts 0 and 1 and succeeding on
attempt 2. -/
def c5op : Nat → Except String Nat := fun i => if i < 2 then .error "temporary failure" else .ok 42

/-- A successful tool response. -/
def sampleResponse : ExtractResponse := ⟨true, "instagram", "Sample", none, []⟩

/-- A tool that succeeds on every invocation. -/
def okTool : Nat → Except String ExtractResponse := fun _ => .ok sampleResponse

/-- A full two-entry cache of capacity 2; the entry under key 2 has the
smallest `expires_at`. -/
def cacheW : Cache Nat Nat := ⟨[(1, ⟨10, 5⟩), (2, ⟨20, 3⟩)], 2, ⟨300, 0⟩⟩

/-- The value of `cacheW` after `put 3 30` at time 100: key 2 was
evicted and key 3 inserted with expiry 100 + 300. -/
def cacheWres : Cache Nat Nat := ⟨[(1, ⟨10, 5⟩), (3, ⟨30, 400⟩)], 2, ⟨300, 0⟩⟩

/-- A cache holding one entry that expired at time 5. -/
def c6cache : Cache Nat String := ⟨[(1, ⟨"v", 5⟩)], 10, ⟨300, 0⟩⟩

/-- A cache holding one entry that is still fresh at time 10 (it expires
at 50). -/
def c6fresh : Cache Nat String := ⟨[(1, ⟨"fresh", 50⟩)], 10, ⟨300, 0⟩⟩

/-- An empty cache with the 50-millisecond TTL of the source's own
`test_cache_expiration` (`Duration::from_millis(50)`). -/
def c7cache : Cache String String := ⟨[], 10, ⟨0, 50000000⟩⟩

/-- The value of `c7cache` after `put "key1" "value1"` at time 100: the
computed expiry equals the insertion time itself. -/
def c7after : Cache String String := ⟨[("key1", ⟨"value1", 100⟩)], 10, ⟨0, 50000000⟩⟩

/-- A cache constructed with `max_size = 0`. -/
def c10cache0 : Cache Nat Nat := ⟨[], 0, ⟨300, 0⟩⟩

/-- A nonempty cache with `max_size = 1`. -/
def c10cache1 : Cache Nat Nat := ⟨[(1, ⟨10, 5⟩)], 1, ⟨300, 0⟩⟩

/-- Candidate format of height 480 with a valid URL. -/
def f480 : RawFormat := ⟨some "h264", some 480, none, some "https://example.com/480.mp4", some "mp4", none⟩

/-- Candidate format of height 720 with a valid URL. -/
def f720 : RawFormat := ⟨some "h264", some 720, none, some "https://example.com/720.mp4", some "mp4", none⟩

/-- Candidate format of height 1080 with a valid URL. -/
def f1080 : RawFormat := ⟨some "h264", some 1080, none, some "https://example.com/1080.mp4", some "mp4", none⟩

/-- The candidate list with heights 480, 720, 1080, in that order. -/
def c8formats : List RawFormat := [f480, f720, f1080]

/-- Tool output with no top-level direct URL and the three candidates
above. -/
def c8json : ToolJson := ⟨none, none, none, some c8formats, none⟩

/-! ## Theorems: validation -/

/-- C1: every URL containing at least one dangerous character is
rejected with `DangerousCharacter` carrying the first such character in
left-to-right order (`List.find?` returns the first match), and the
verdict is the same for every URL parser — the rejection precedes any
parsing. -/
theorem validate_url_dangerous_first (parse : String → Option ParsedUrl) (url : String)
    (h : url.data.any isDangerousChar = true) :
    ∃ c, url.data.find? isDangerousChar = some c ∧
      validate_url parse url = .error (.dangerousCharacter c) := by
  obtain ⟨c, hc⟩ : ∃ c, url.data.find? isDangerousChar = some c := by
    cases hfind : url.data.find? isDangerousChar with
    | some c => exact ⟨c, rfl⟩
    | none =>
      rw [List.find?_eq_none] at hfind
      rw [List.any_eq_true] at h
      obtain ⟨x, hx, hpx⟩ := h
      exact absurd hpx (by simpa using hfind x hx)
  exact ⟨c, hc, by simp [validate_url, hc]⟩

/-- Witness for C1: the injection attempt `c1url` contains a dangerous
character, so it is rejected with the first one regardless of the
parser. -/
theorem validate_url_dangerous_first_witness :
    ∃ c, c1url.data.find? isDangerousChar = some c ∧
      validate_url noParse c1url = .error (.dangerousCharacter c) :=
  validate_url_dangerous_first noParse c1url (by decide)

/-- C9 counterexample: the empty string (whose trimmed form is empty) is
rejected, but with the parse-failure reason, not `EmptyInput` — the code
has no empty-input rule at all. -/
theorem validate_url_empty_cex :
    trimmedEmpty "" = true ∧
    validate_url noParse "" = .error .malformedUrl ∧
    validate_url noParse "" ≠ .error .emptyInput := by
  refine ⟨by decide, rfl, by simp [validate_url, noParse]⟩

/-- C9 (amended): `validate_url` never returns `EmptyInput` for any
input and any parser; a URL whose trimmed form is empty and which the
parser rejects is still rejected, but as `MalformedUrl`, or as
`DangerousCharacter` when it contains a dangerous whitespace character
(tab, newline, carriage return). -/
theorem validate_url_trimmed_empty (parse : String → Option ParsedUrl) (url : String)
    (htrim : trimmedEmpty url = true) (hparse : parse url = none) :
    (validate_url parse url = .error .malformedUrl ∨
      ∃ c, validate_url parse url = .error (.dangerousCharacter c)) ∧
    ∀ (p : String → Option ParsedUrl) (u : String),
      validate_url p u ≠ .error .emptyInput := by
  constructor
  · cases hfind : url.data.find? isDangerousChar with
    | some c => exact Or.inr ⟨c, by simp [validate_url, hfind]⟩
    | none => exact Or.inl (by simp [validate_url, hfind, hparse])
  · intro p u
    unfold validate_url
    cases hf : u.data.find? isDangerousChar with
    | some c => simp
    | none =>
      cases hp : p u with
      | none => simp
      | some parsed =>
        dsimp only
        split
        · split
          · simp
          · split
            · simp
            · simp
        · simp

/-- Witness for C9 (amended), at the empty string and the rejecting
parser. -/
theorem validate_url_trimmed_empty_witness :
    (validate_url noParse "" = .error .malformedUrl ∨
      ∃ c, validate_url noParse "" = .error (.dangerousCharacter c)) ∧
    ∀ (p : String → Option ParsedUrl) (u : String),
      validate_url p u ≠ .error .emptyInput :=
  validate_url_trimmed_empty noParse "" (by decide) rfl

/-! ## Theorems: retry controller -/

/-- The invocation count of `retryAux` is at most
`attempt + remaining + 1`. -/
theorem retryAux_count {T E : Type} (op : Nat → Except E T) (r : Nat) :
    ∀ a d, (retryAux op a d r).2 ≤ a + r + 1 := by
  induction r with
  | zero =>
    intro a d
    unfold retryAux
    cases op a <;> simp
  | succ r ih =>
    intro a d
    unfold retryAux
    cases op a with
    | ok v => simp
    | error e =>
      calc (retryAux op (a + 1) (capDelay (d * 2)) r).2 ≤ (a + 1) + r + 1 := ih _ _
        _ = a + (r + 1) + 1 := by omega

/-- When every attempt in the window fails, `retryAux` performs every
attempt and returns the error of the final one. -/
theorem retryAux_allFail {T E : Type} (op : Nat → Except E T) (r : Nat) :
    ∀ a d, (∀ i, a ≤ i → i ≤ a + r → ∃ e, op i = .error e) →
      ∃ e, op (a + r) = .error e ∧ retryAux op a d r = (.error e, a + r + 1) := by
  induction r with
  | zero =>
    intro a d h
    obtain ⟨e, he⟩ := h a le_rfl (by omega)
    exact ⟨e, by simpa using he, by simp [retryAux, he]⟩
  | succ r ih =>
    intro a d h
    obtain ⟨e, he⟩ := h a le_rfl (by omega)
    obtain ⟨e2, he2, hrec⟩ := ih (a + 1) (capDelay (d * 2))
      (fun i h1 h2 => h i (by omega) (by omega))
    refine ⟨e2, ?_, ?_⟩
    · have : a + (r + 1) = (a + 1) + r := by omega
      rw [this]; exact he2
    · unfold retryAux
      rw [he]
      dsimp only
      rw [hrec]
      have : (a + 1) + r + 1 = a + (r + 1) + 1 := by omega
      rw [this]

/-- When the first success in the window is at attempt `k`, `retryAux`
returns it after exactly `k + 1` invocations. -/
theorem retryAux_firstSuccess {T E : Type} (op : Nat → Except E T) (r : Nat) :
    ∀ a d k v, a ≤ k → k ≤ a + r →
      (∀ i, a ≤ i → i < k → ∃ e, op i = .error e) →
      op k = .ok v →
      retryAux op a d r = (.ok v, k + 1) := by
  induction r with
  | zero =>
    intro a d k v h1 h2 h3 hk
    have hka : k = a := by omega
    subst hka
    simp [retryAux, hk]
  | succ r ih =>
    intro a d k v h1 h2 h3 hk
    by_cases hak : k = a
    · subst hak
      simp [retryAux, hk]
    · have ha : a < k := by omega
      obtain ⟨e, he⟩ := h3 a le_rfl ha
      unfold retryAux
      rw [he]
      dsimp only
      exact ih (a + 1) _ k v (by omega) (by omega) (fun i hi1 hi2 => h3 i (by omega) hi2) hk

/-- C5: the retry controller invokes the operation at most
`max_retries + 1` times; when the first success happens at attempt `k`
it is returned immediately with exactly `k + 1` invocations; and when
every attempt fails, the error of the final attempt (attempt
`max_retries`) is returned after `max_retries + 1` invocations. -/
theorem retry_with_backoff_spec {T E : Type} (op : Nat → Except E T) (m : Nat) :
    (retry_with_backoff op m).2 ≤ m + 1 ∧
    (∀ k v, k ≤ m → (∀ i, i < k → ∃ e, op i = .error e) → op k = .ok v →
      retry_with_backoff op m = (.ok v, k + 1)) ∧
    ((∀ i, i ≤ m → ∃ e, op i = .error e) →
      ∃ e, op m = .error e ∧ retry_with_backoff op m = (.error e, m + 1)) := by
  refine ⟨?_, ?_, ?_⟩
  · simpa using retryAux_count op m 0 500
  · intro k v hk hfail hok
    exact retryAux_firstSuccess op m 0 500 k v (Nat.zero_le k) (by omega)
      (fun i _ h2 => hfail i h2) hok
  · intro h
    simpa using retryAux_allFail op m 0 500 (fun i _ h2 => h i (by omega))

/-- Witness for C5: an operation failing on attempts 0 and 1 and
succeeding on attempt 2, with `max_retries = 3`, returns the success
after exactly 3 invocations. -/
theorem retry_with_backoff_spec_witness :
    retry_with_backoff c5op 3 = (.ok 42, 3) :=
  (retry_with_backoff_spec c5op 3).2.1 2 42 (by omega)
    (fun i hi => ⟨"temporary failure", by simp [c5op, hi]⟩) (by simp [c5op])

/-- C2 counterexample: an operation whose error is classified
non-retryable by `is_retryable_error` is nevertheless invoked 4 times
(not once) under `retry_with_backoff` with `max_retries = 3` — the
controller consults no retryability predicate. -/
theorem retry_nonretryable_cex :
    is_retryable_error c2err = false ∧
    (retry_with_backoff c2op 3).2 = 4 ∧
    (retry_with_backoff c2op 3).2 ≠ 1 := by
  refine ⟨by decide, by decide, by decide⟩

/-- C2 (amended): `retry_with_backoff` takes no retryability predicate
and retries every error while budget remains; an operation whose every
attempt fails with an error classified non-retryable by
`is_retryable_error` is still invoked the full `max_retries + 1` times,
and the final non-retryable error is returned. -/
theorem retry_ignores_retryability {T : Type} (op : Nat → Except String T) (m : Nat)
    (h : ∀ i, i ≤ m → ∃ e, op i = .error e ∧ is_retryable_error e = false) :
    ∃ e, op m = .error e ∧ is_retryable_error e = false ∧
      retry_with_backoff op m = (.error e, m + 1) := by
  obtain ⟨e, he, hrun⟩ := retryAux_allFail op m 0 500
    (fun i _ h2 => ⟨(h i (by omega)).choose, (h i (by omega)).choose_spec.1⟩)
  obtain ⟨e', he', hret⟩ := h m le_rfl
  have hee : e = e' := by
    have h0 : op (0 + m) = op m := by rw [Nat.zero_add]
    rw [h0] at he
    rw [he] at he'
    exact (Except.error.injEq _ _).mp he'.symm |>.symm
  subst hee
  refine ⟨e, by simpa using he, hret, by simpa using hrun⟩

/-- Witness for C2 (amended): the always-non-retryable operation `c2op`
with `max_retries = 3` is invoked 4 times and its error is returned. -/
theorem retry_ignores_retryability_witness :
    ∃ e, c2op 3 = .error e ∧ is_retryable_error e = false ∧
      retry_with_backoff c2op 3 = (.error e, 4) :=
  retry_ignores_retryability c2op 3 (fun i _ => ⟨c2err, rfl, by decide⟩)

/-! ## Theorems: cache -/

/-- The entry selected by `minExpiry` is one of the stored entries. -/
theorem minExpiry_mem {K V : Type} (data : List (K × CacheEntry V)) (p : K × CacheEntry V)
    (h : minExpiry data = some p) : p ∈ data := by
  induction data with
  | nil => simp [minExpiry] at h
  | cons q qs ih =>
    unfold minExpiry at h
    cases hm : minExpiry qs with
    | none => rw [hm] at h; simp at h; simp [h]
    | some m =>
      rw [hm] at h
      dsimp only at h
      by_cases hlt : q.2.expires_at < m.2.expires_at
      · rw [if_pos hlt] at h
        simp at h
        simp [h]
      · rw [if_neg hlt] at h
        simp at h
        subst h
        exact List.mem_cons_of_mem q (ih hm)

/-- `minExpiry` yields an entry on every nonempty map. -/
theorem minExpiry_isSome {K V : Type} (data : List (K × CacheEntry V)) (h : data ≠ []) :
    ∃ p, minExpiry data = some p := by
  cases data with
  | nil => exact absurd rfl h
  | cons q qs =>
    unfold minExpiry
    cases minExpiry qs with
    | none => exact ⟨q, rfl⟩
    | some m =>
      dsimp only
      by_cases hlt : q.2.expires_at < m.2.expires_at
      · exact ⟨q, by rw [if_pos hlt]⟩
      · exact ⟨m, by rw [if_neg hlt]⟩

/-- The entry selected by `minExpiry` has the smallest `expires_at` of
all stored entries. -/
theorem minExpiry_min {K V : Type} :
    ∀ (data : List (K × CacheEntry V)) (p : K × CacheEntry V),
      minExpiry data = some p → ∀ q ∈ data, p.2.expires_at ≤ q.2.expires_at := by
  intro data
  induction data with
  | nil => intro p h; simp [minExpiry] at h
  | cons a as ih =>
    intro p h x hx
    unfold minExpiry at h
    cases hm : minExpiry as with
    | none =>
      rw [hm] at h
      simp at h
      rw [← h]
      cases hx with
      | head => exact le_rfl
      | tail _ hmem =>
        obtain ⟨p', hp'⟩ := minExpiry_isSome as (List.ne_nil_of_mem hmem)
        rw [hp'] at hm
        exact Option.noConfusion hm
    | some m =>
      rw [hm] at h
      dsimp only at h
      by_cases hlt : a.2.expires_at < m.2.expires_at
      · rw [if_pos hlt] at h
        simp at h
        rw [← h]
        cases hx with
        | head => exact le_rfl
        | tail _ hmem => exact le_trans (le_of_lt hlt) (ih m hm x hmem)
      · rw [if_neg hlt] at h
        simp at h
        rw [← h]
        cases hx with
        | head => exact le_of_not_lt hlt
        | tail _ hmem => exact ih m hm x hmem

/-- Removing a key that is bound in the map shortens it by exactly
one binding. -/
theorem eraseKey_length {K V : Type} [DecidableEq K] (data : List (K × CacheEntry V)) (k : K)
    (h : ∃ e, (k, e) ∈ data) : (eraseKey data k).length + 1 = data.length := by
  induction data with
  | nil => simp at h
  | cons p ps ih =>
    obtain ⟨e, he⟩ := h
    unfold eraseKey
    by_cases hk : p.1 = k
    · rw [if_pos hk]; simp
    · rw [if_neg hk]
      have hmem : (k, e) ∈ ps := by
        cases he with
        | head => exact absurd rfl hk
        | tail _ hmem => exact hmem
      have := ih ⟨e, hmem⟩
      simpa using this

/-- `evict_oldest` removes exactly one entry from a nonempty map. -/
theorem evictOldest_length {K V : Type} [DecidableEq K] (data : List (K × CacheEntry V))
    (h : data ≠ []) : (evictOldest data).length + 1 = data.length := by
  obtain ⟨p, hp⟩ := minExpiry_isSome data h
  unfold evictOldest
  rw [hp]
  exact eraseKey_length data p.1 ⟨p.2, by simpa using minExpiry_mem data p hp⟩

/-- With `max_size = 0` the eviction loop never finishes, whatever the
fuel: the loop condition `len() >= 0` always holds while `evict_oldest`
eventually removes nothing. -/
theorem evictLoopFuel_zero {K V : Type} [DecidableEq K] (fuel : Nat) :
    ∀ data : List (K × CacheEntry V), evictLoopFuel 0 fuel data = none := by
  induction fuel with
  | zero => intro data; rfl
  | succ fuel ih =>
    intro data
    unfold evictLoopFuel
    rw [if_pos (Nat.zero_le _)]
    exact ih (evictOldest data)

/-- Whenever the eviction loop finishes, the surviving map is strictly
below capacity; and when it had to evict at all, it stopped as soon as
there was room for exactly one more entry. -/
theorem evictLoopFuel_length {K V : Type} [DecidableEq K] (maxSize fuel : Nat) :
    ∀ (data d : List (K × CacheEntry V)), evictLoopFuel maxSize fuel data = some d →
      d.length < maxSize ∧ (maxSize ≤ data.length → d.length + 1 = maxSize) := by
  induction fuel with
  | zero => intro data d h; simp [evictLoopFuel] at h
  | succ fuel ih =>
    intro data d h
    unfold evictLoopFuel at h
    by_cases hc : maxSize ≤ data.length
    · rw [if_pos hc] at h
      have hms : 1 ≤ maxSize := by
        by_contra hm
        have h0 : maxSize = 0 := by omega
        rw [h0] at h
        rw [evictLoopFuel_zero] at h
        exact Option.noConfusion h
      have hne : data ≠ [] := by
        intro hnil
        rw [hnil] at hc
        simp at hc
        omega
      have hlen := evictOldest_length data hne
      obtain ⟨hlt, hexact⟩ := ih (evictOldest data) d h
      refine ⟨hlt, fun _ => ?_⟩
      by_cases hc2 : maxSize ≤ (evictOldest data).length
      · exact hexact hc2
      · cases fuel with
        | zero => simp [evictLoopFuel] at h
        | succ fuel2 =>
          unfold evictLoopFuel at h
          rw [if_neg hc2] at h
          have hd : d = evictOldest data := by
            exact (Option.some.injEq _ _).mp h |>.symm
          rw [hd]
          omega
    · rw [if_neg hc] at h
      have hd : d = data := by
        exact (Option.some.injEq _ _).mp h |>.symm
      subst hd
      exact ⟨by omega, fun h2 => absurd h2 hc⟩

/-- Insertion grows the map by at most one binding. -/
theorem insertAssoc_length_le {K V : Type} [DecidableEq K]
    (data : List (K × CacheEntry V)) (k : K) (e : CacheEntry V) :
    (insertAssoc data k e).length ≤ data.length + 1 := by
  induction data with
  | nil => simp [insertAssoc]
  | cons p ps ih =>
    unfold insertAssoc
    by_cases hk : p.1 = k
    · rw [if_pos hk]; simp
    · rw [if_neg hk]
      simpa using ih

/-- For `max_size ≥ 1` the eviction loop finishes within
`data.length + 1` iterations. -/
theorem evictLoopFuel_terminates {K V : Type} [DecidableEq K] (maxSize : Nat)
    (h1 : 1 ≤ maxSize) :
    ∀ (n : Nat) (data : List (K × CacheEntry V)), data.length = n →
      ∃ d, evictLoopFuel maxSize (n + 1) data = some d := by
  intro n
  induction n with
  | zero =>
    intro data hd
    have hc : ¬ (maxSize ≤ data.length) := by omega
    exact ⟨data, by simp [evictLoopFuel, hc]⟩
  | succ n ih =>
    intro data hd
    by_cases hc : maxSize ≤ data.length
    · have hne : data ≠ [] := by
        intro hnil
        rw [hnil] at hd
        simp at hd
      have hlen : (evictOldest data).length = n := by
        have := evictOldest_length data hne
        omega
      obtain ⟨d, hd2⟩ := ih (evictOldest data) hlen
      exact ⟨d, by simp only [evictLoopFuel, if_pos hc]; exact hd2⟩
    · exact ⟨data, by simp only [evictLoopFuel, if_neg hc]⟩

/-- C4: whenever `put` returns, the resulting cache respects
`len() ≤ max_size`; on any nonempty map the eviction victim is an entry
with the smallest `expires_at` among the currently stored entries; and
the eviction loop, when it had to evict, repeats until there is room for
exactly one more entry (`len() = max_size - 1`). -/
theorem cachePut_capacity {K V : Type} [DecidableEq K] (c : Cache K V) (k : K) (v : V)
    (now fuel : Nat) :
    (∀ c', cachePut c k v now fuel = some c' → c'.data.length ≤ c.max_size) ∧
    (c.data ≠ [] → ∃ p, p ∈ c.data ∧ (∀ q ∈ c.data, p.2.expires_at ≤ q.2.expires_at) ∧
      evictOldest c.data = eraseKey c.data p.1) ∧
    (∀ d, evictLoopFuel c.max_size fuel c.data = some d →
      d.length < c.max_size ∧ (c.max_size ≤ c.data.length → d.length + 1 = c.max_size)) := by
  refine ⟨?_, ?_, ?_⟩
  · intro c' h
    unfold cachePut at h
    cases hev : evictLoopFuel c.max_size fuel c.data with
    | none => rw [hev] at h; exact Option.noConfusion h
    | some d =>
      rw [hev] at h
      have hc' : c' = { c with data := insertAssoc d k ⟨v, expiresAtOf now c.ttl⟩ } :=
        ((Option.some.injEq _ _).mp h).symm
      have hlt := (evictLoopFuel_length c.max_size fuel c.data d hev).1
      have hins := insertAssoc_length_le d k (⟨v, expiresAtOf now c.ttl⟩ : CacheEntry V)
      rw [hc']
      simp only []
      omega
  · intro hne
    obtain ⟨p, hp⟩ := minExpiry_isSome c.data hne
    exact ⟨p, minExpiry_mem c.data p hp, minExpiry_min c.data p hp,
      by unfold evictOldest; rw [hp]⟩
  · exact fun d => evictLoopFuel_length c.max_size fuel c.data d

/-- Witness for C4: putting key 3 into the full two-entry `cacheW`
evicts the soonest-expiring entry and stays within capacity. -/
theorem cachePut_capacity_witness :
    cacheWres.data.length ≤ cacheW.max_size ∧
    (∃ p, p ∈ cacheW.data ∧ (∀ q ∈ cacheW.data, p.2.expires_at ≤ q.2.expires_at) ∧
      evictOldest cacheW.data = eraseKey cacheW.data p.1) := by
  have h := cachePut_capacity cacheW 3 30 100 5
  exact ⟨h.1 cacheWres (by decide), h.2.1 (by decide)⟩

/-- C6 counterexample: `remove`, unlike `get`, performs no expiry check:
on a cache whose only entry expired at time 5, `get` at time 10 returns
nothing, yet `remove` hands the value back to the caller even though the
entry is past its expiry. -/
theorem cacheRemove_expired_cex :
    (cacheGet c6cache 1 10).1 = none ∧
    findEntry c6cache.data 1 = some ⟨"v", 5⟩ ∧
    (5 : Nat) ≤ 10 ∧
    (cacheRemove c6cache 1).1 = some "v" := by
  refine ⟨by decide, by decide, by omega, by decide⟩

/-- C6 (amended): `get` never returns a value past its expiry — whenever
it returns a value, the stored entry satisfies `now < expires_at` —
while `remove` returns the stored value unconditionally, with no expiry
check. -/
theorem cacheGet_not_expired {K V : Type} [DecidableEq K] (c : Cache K V) (k : K) (now : Nat) :
    (∀ v, (cacheGet c k now).1 = some v →
      ∃ e, findEntry c.data k = some e ∧ e.data = v ∧ now < e.expires_at) ∧
    (∀ e, findEntry c.data k = some e → (cacheRemove c k).1 = some e.data) := by
  constructor
  · intro v h
    unfold cacheGet at h
    cases hf : findEntry c.data k with
    | none => rw [hf] at h; simp at h
    | some e =>
      rw [hf] at h
      dsimp only at h
      by_cases hlt : now < e.expires_at
      · rw [if_pos hlt] at h
        simp at h
        exact ⟨e, rfl, h, hlt⟩
      · rw [if_neg hlt] at h
        simp at h
  · intro e hf
    unfold cacheRemove
    rw [hf]
    rfl

/-- Witness for C6 (amended): a fresh `get` hit satisfies the expiry
bound, and `remove` hands back the stored value of an expired entry. -/
theorem cacheGet_not_expired_witness :
    (∃ e, findEntry c6fresh.data 1 = some e ∧ e.data = "fresh" ∧ 10 < e.expires_at) ∧
    (cacheRemove c6cache 1).1 = some "v" := by
  have h1 := (cacheGet_not_expired c6fresh 1 10).1 "fresh" (by decide)
  have h2 := (cacheGet_not_expired c6cache 1 0).2 ⟨"v", 5⟩ (by decide)
  exact ⟨h1, h2⟩

/-- C7 (code-bug evidence): with the 50-millisecond TTL of the source's
own `test_cache_expiration`, the computed expiry is
`now + 0 + 50000000 / 1000000000 = now` — the sub-second component is
truncated to zero — so the entry inserted at time 100 is already expired
at time 100: a `get` performed before the TTL has elapsed returns
nothing and deletes the entry, contradicting both the claim and the
first assertion of that test. -/
theorem cache_subsecond_ttl_bug :
    c7cache.ttl = ⟨0, 50000000⟩ ∧
    expiresAtOf 100 c7cache.ttl = 100 ∧
    cachePut c7cache "key1" "value1" 100 1 = some c7after ∧
    (cacheGet c7after "key1" 100).1 = none ∧
    (cacheGet c7after "key1" 100).2.data = [] := by
  refine ⟨by decide, by decide, by decide, by decide, by decide⟩

/-- C10: `put` terminates for every cache of capacity at least 1 (fuel
`len + 1` suffices for the eviction loop), and never terminates on a
cache constructed with `max_size = 0` (every finite fuel is exhausted,
because the loop condition `len() >= 0` always holds while
`evict_oldest` removes nothing once the map is empty). -/
theorem cachePut_termination {K V : Type} [DecidableEq K] :
    (∀ (c : Cache K V) (k : K) (v : V) (now : Nat), 1 ≤ c.max_size →
      ∃ c', cachePut c k v now (c.data.length + 1) = some c') ∧
    (∀ (c : Cache K V) (k : K) (v : V) (now fuel : Nat), c.max_size = 0 →
      cachePut c k v now fuel = none) := by
  constructor
  · intro c k v now h1
    obtain ⟨d, hd⟩ := evictLoopFuel_terminates c.max_size h1 c.data.length c.data rfl
    refine ⟨{ c with data := insertAssoc d k ⟨v, expiresAtOf now c.ttl⟩ }, ?_⟩
    unfold cachePut
    rw [hd]
  · intro c k v now fuel h0
    unfold cachePut
    rw [h0, evictLoopFuel_zero]

/-- Witness for C10: `put` on a full capacity-1 cache succeeds with fuel
`len + 1`, and `put` on a `max_size = 0` cache diverges (here at
fuel 7). -/
theorem cachePut_termination_witness :
    (∃ c', cachePut c10cache1 2 20 100 (c10cache1.data.length + 1) = some c') ∧
    cachePut c10cache0 1 10 100 7 = none :=
  ⟨cachePut_termination.1 c10cache1 2 20 100 (by decide),
    cachePut_termination.2 c10cache0 1 10 100 7 rfl⟩

/-! ## Theorems: extractor -/

/-- C3 (code-bug evidence): `extract_video_info` consults no cache — its
model has no cache state at all, faithfully to the extraction path in
extractor.rs/handlers.rs, where the `Cache` built in main.rs is never
read or written.  Two calls for the same accepted URL, with the tool
succeeding on its first attempt each time and well inside any TTL
window, invoke the external tool once each: two tool runs in total,
while the claim requires exactly one across the two calls. -/
theorem extract_video_info_no_cache_evidence :
    (extract_video_info instaParse okTool "https://instagram.com/p/ABC123").2 = 1 ∧
    (extract_video_info instaParse okTool "https://instagram.com/p/ABC123").2 +
      (extract_video_info instaParse okTool "https://instagram.com/p/ABC123").2 = 2 ∧
    (extract_video_info instaParse okTool "https://instagram.com/p/ABC123").1 =
      .ok sampleResponse := by
  refine ⟨by decide, by decide, by rfl⟩

/-- C8: on tool output with no top-level direct URL, format selection
keeps exactly the candidates whose video codec is not "none" and that
carry a source URL, arranges them in descending height order
(`sortByHeightDesc` is a permutation of the kept candidates, sorted
under `heightGE`), emits at most the top 3, labels each with
"{height}p" when the height is known (positive), else the tool-provided
`format_note`, else "unknown"; and on the concrete candidates with
heights 480, 720, 1080 the output order is [1080p, 720p, 480p]. -/
theorem extract_formats_spec (j : ToolJson) (fl : List RawFormat)
    (h1 : j.url = none) (h2 : j.formats = some fl)
    (h3 : fl.filter formatKeep ≠ []) :
    (sortByHeightDesc (fl.filter formatKeep)).Perm (fl.filter formatKeep) ∧
    List.Sorted heightGE (sortByHeightDesc (fl.filter formatKeep)) ∧
    extract_formats j = ((sortByHeightDesc (fl.filter formatKeep)).take 3).map
      (fun f => ⟨if 0 < heightOf f then toString (heightOf f) ++ "p"
                 else f.format_note.getD "unknown",
                 f.url.getD "", f.ext.getD "mp4", f.filesize⟩) ∧
    (extract_formats j).length ≤ 3 ∧
    (extract_formats c8json).map (fun vf => vf.quality) = ["1080p", "720p", "480p"] := by
  have hperm : (sortByHeightDesc (fl.filter formatKeep)).Perm (fl.filter formatKeep) :=
    List.perm_insertionSort heightGE (fl.filter formatKeep)
  have hsorted : List.Sorted heightGE (sortByHeightDesc (fl.filter formatKeep)) :=
    List.sorted_insertionSort heightGE (fl.filter formatKeep)
  have hpos : 0 < (fl.filter formatKeep).length := List.length_pos.mpr h3
  have hlen : (((sortByHeightDesc (fl.filter formatKeep)).take 3).map mkVideoFormat).length =
      min 3 (fl.filter formatKeep).length := by
    simp [List.length_take, sortByHeightDesc, List.length_insertionSort]
  have hne : ((sortByHeightDesc (fl.filter formatKeep)).take 3).map mkVideoFormat ≠ [] := by
    intro hnil
    rw [hnil] at hlen
    simp at hlen
    omega
  have hfalse : (((sortByHeightDesc (fl.filter formatKeep)).take 3).map
      mkVideoFormat).isEmpty = false := by
    cases hc : ((sortByHeightDesc (fl.filter formatKeep)).take 3).map mkVideoFormat with
    | nil => exact absurd hc hne
    | cons a l => rfl
  have heq : extract_formats j =
      ((sortByHeightDesc (fl.filter formatKeep)).take 3).map mkVideoFormat := by
    unfold extract_formats
    rw [h1, h2]
    dsimp only
    rw [hfalse]
    simp only [Bool.false_eq_true, if_false]
  refine ⟨hperm, hsorted, heq, ?_, ?_⟩
  · rw [heq, hlen]
    omega
  · decide

/-- Witness for C8, at the concrete tool output `c8json` whose
candidates have heights 480, 720, 1080. -/
theorem extract_formats_spec_witness :
    (sortByHeightDesc (c8formats.filter formatKeep)).Perm (c8formats.filter formatKeep) ∧
    (extract_formats c8json).length ≤ 3 ∧
    (extract_formats c8json).map (fun vf => vf.quality) = ["1080p", "720p", "480p"] := by
  have h := extract_formats_spec c8json c8formats rfl rfl (by decide)
  exact ⟨h.1, h.2.2.2.1, h.2.2.2.2⟩

end Snatch
